import Mathlib

/-!
Verification of the AHDL job-orchestration and position-sweep subsystem.

This file is a shallow embedding of the parts of the repository that the
spec's claims are about:

* the Executor's status-update trace (`simulation/app/services/simulate.py`,
  `run_simulation` together with `_update_job_status`, and
  `simulation/app/worker.py`, `process_job`);
* the result encoder/decoder (`_run_sionna_step`'s base64 packing and
  `simulation_ui.py`, `process_simulation_results_data`);
* the trajectory generator (`_calculate_trajectories`, `polar_to_cartesian`);
* the independent-mode (Cartesian-product) step enumeration of
  `run_simulation`;
* the Job Store / Dispatcher (`database/job_queue.py`, `create_job` and
  `list_jobs`).

Python floats are modelled as exact rationals or reals; `none` is used where
numpy produces a non-finite value (NaN/inf).
-/

namespace AHDL

/-! ### Status updates issued by the Executor

`_update_job_status(job_id, status, progress, result)` performs one PUT to the
Job Store.  We record each call as an `Update`; `resultPresent` tells whether
the optional `result` payload was attached (it is attached exactly when the
Python argument is not `None`). -/

structure Update where
  status : String
  progress : Nat
  resultPresent : Bool
deriving DecidableEq

/-- Progress reported after `k` completed steps out of `n`:
`int(k / n * 100)` in `run_simulation` (float division then truncation),
modelled with exact rational arithmetic.  The value is non-negative, so
Python's `int` truncation is the floor. -/
def progressAt (n k : Nat) : Nat := (⌊((k : ℚ) / (n : ℚ)) * 100⌋).toNat

/-- The sequence of status updates a successful run of `run_simulation`
issues, in order, when the run has `n` steps (`n = simulation_steps` in
synchronized mode, `n = total_combinations` in independent mode; both
branches of `run_simulation` produce this same shape):
the initial `processing/0` update, one `processing` update after each step,
and the final `completed/100` update carrying the accumulated results. -/
def runUpdates (n : Nat) : List Update :=
  ⟨"processing", 0, false⟩ ::
    ((List.range n).map fun k => ⟨"processing", progressAt n (k + 1), false⟩)
      ++ [⟨"completed", 100, true⟩]

/-- The sequence of status updates observed when the external per-step
computation (`_run_sionna_step`) raises on step `j` (1-based) of an `n`-step
run: `run_simulation` issues the initial update and the per-step updates for
the `j - 1` completed steps, the exception propagates out of
`run_simulation`, and `worker.process_job` catches it and issues a final
`failed/0` update with no result. -/
def runUpdatesFailAt (n j : Nat) : List Update :=
  ⟨"processing", 0, false⟩ ::
    ((List.range (j - 1)).map fun k => ⟨"processing", progressAt n (k + 1), false⟩)
      ++ [⟨"failed", 0, false⟩]

/-- Python `int(k / n * 100)` agrees with natural-number floor division
`(100 * k) / n`. -/
theorem progressAt_eq (n k : Nat) : progressAt n k = 100 * k / n := by
  unfold progressAt
  rw [Int.floor_toNat, div_mul_eq_mul_div]
  rw [show ((k : ℚ) * 100) = ((100 * k : Nat) : ℚ) by push_cast; ring]
  exact Nat.floor_div_eq_div (100 * k) n

theorem progressAt_mono (n : Nat) {k k' : Nat} (h : k ≤ k') :
    progressAt n k ≤ progressAt n k' := by
  rw [progressAt_eq, progressAt_eq]
  exact Nat.div_le_div_right (Nat.mul_le_mul_left 100 h)

theorem progressAt_le_100 (n k : Nat) (h : k ≤ n) : progressAt n k ≤ 100 := by
  rw [progressAt_eq]
  rcases Nat.eq_zero_or_pos n with hn | hn
  · simp [hn]
  · calc 100 * k / n ≤ 100 * n / n := Nat.div_le_div_right (Nat.mul_le_mul_left 100 h)
    _ = 100 := Nat.mul_div_cancel 100 hn

theorem progressAt_self (n : Nat) (hn : 1 ≤ n) : progressAt n n = 100 := by
  rw [progressAt_eq, Nat.mul_div_cancel 100 hn]

/-- C1: the claimed invariant "progress = 100 iff status = completed at every
update" fails on the code: in a successful 1-step run, the per-step update
issued after the final step reports progress 100 while the status is still
"processing". -/
theorem c1_counterexample :
    ∃ u ∈ runUpdates 1, u.progress = 100 ∧ u.status ≠ "completed" := by
  refine ⟨⟨"processing", 100, false⟩, ?_, rfl, by decide⟩
  have h1 : progressAt 1 1 = 100 := by rw [progressAt_eq]
  simp [runUpdates, h1]

/-- C1 (amended): at every status update of a successful run, status
"completed" implies progress 100; the converse direction fails, because the
update issued after the last step reports progress 100 with status still
"processing". -/
theorem c1_completed_implies_full_progress (n : Nat) (hn : 1 ≤ n) :
    (∀ u ∈ runUpdates n, u.status = "completed" → u.progress = 100) ∧
    (⟨"processing", 100, false⟩ : Update) ∈ runUpdates n := by
  constructor
  · intro u hu hc
    simp [runUpdates] at hu
    rcases hu with rfl | ⟨k, _, rfl⟩ | rfl <;> simp_all
  · apply List.mem_cons_of_mem
    apply List.mem_append_left
    apply List.mem_map.mpr
    refine ⟨n - 1, List.mem_range.mpr (by omega), ?_⟩
    rw [show n - 1 + 1 = n by omega, progressAt_self n hn]

/-- C1 witness: the amended statement instantiated at a 1-step run. -/
theorem c1_witness :
    1 ≤ 1 ∧
      ((∀ u ∈ runUpdates 1, u.status = "completed" → u.progress = 100) ∧
        (⟨"processing", 100, false⟩ : Update) ∈ runUpdates 1) :=
  ⟨le_refl 1, c1_completed_implies_full_progress 1 (le_refl 1)⟩

/-- C6: the reported progress is `int(100 k / total)` (floor), not
`round(100 k / total)`: at step 2 of 3 the code reports 66 while rounding
gives 67, and the 3-step progress sequence is [33, 66, 100], not the claimed
[34, 67, 100]. -/
theorem c6_counterexample :
    (runUpdates 3).map Update.progress = [0, 33, 66, 100, 100] ∧
    (runUpdates 3).map Update.progress ≠ [0, 34, 67, 100, 100] ∧
    round ((100 * 2 : ℚ) / 3) = 67 ∧ progressAt 3 2 = 66 := by
  have h1 : progressAt 3 1 = 33 := by rw [progressAt_eq]
  have h2 : progressAt 3 2 = 66 := by rw [progressAt_eq]
  have h3 : progressAt 3 3 = 100 := by rw [progressAt_eq]
  refine ⟨?_, ?_, ?_, h2⟩
  · simp [runUpdates, h1, h2, h3, List.range_succ]
  · simp [runUpdates, h1, h2, h3, List.range_succ]
  · rw [round_eq]
    rw [show (100 * 2 : ℚ) / 3 + 1 / 2 = 403 / 6 by norm_num]
    rw [Int.floor_eq_iff]
    norm_num

/-- C6 (amended): after completing step `k` of `n`, the Executor reports
status "processing" with progress `⌊100 k / n⌋` (Python `int` truncation of
`k / n * 100`); in particular a 3-step run reports [33, 66, 100]. -/
theorem c6_progress_is_floor (n k : Nat) (h1 : 1 ≤ k) (h2 : k ≤ n) :
    progressAt n k = 100 * k / n ∧
    (runUpdates n)[k]? = some ⟨"processing", progressAt n k, false⟩ := by
  refine ⟨progressAt_eq n k, ?_⟩
  obtain ⟨m, rfl⟩ : ∃ m, k = m + 1 := ⟨k - 1, by omega⟩
  simp only [runUpdates]
  rw [List.getElem?_append, if_pos (by simp; omega)]
  rw [List.getElem?_cons_succ, List.getElem?_map,
    List.getElem?_range (show m < n by omega)]
  rfl

/-- C6 witness: the amended statement instantiated at step 1 of a 3-step
run. -/
theorem c6_witness :
    1 ≤ 1 ∧ 1 ≤ 3 ∧
      (progressAt 3 1 = 100 * 1 / 3 ∧
        (runUpdates 3)[1]? = some ⟨"processing", progressAt 3 1, false⟩) :=
  ⟨le_refl 1, by norm_num, c6_progress_is_floor 3 1 (le_refl 1) (by norm_num)⟩

/-- C7: across a successful run the reported progress values are
non-decreasing, and the final update is "completed" with progress 100 and
the result attached. -/
theorem c7_progress_monotone (n : Nat) :
    List.Pairwise (· ≤ ·) ((runUpdates n).map Update.progress) ∧
    (runUpdates n).getLast? = some ⟨"completed", 100, true⟩ := by
  constructor
  · simp only [runUpdates, List.map_cons, List.map_append, List.map_map]
    refine List.pairwise_cons.mpr ⟨fun b _ => Nat.zero_le b, ?_⟩
    refine List.pairwise_append.mpr ⟨?_, List.pairwise_singleton _ _, ?_⟩
    · refine List.Pairwise.map _ ?_ (List.pairwise_lt_range n)
      intro a b hab
      exact progressAt_mono n (by omega)
    · intro a ha b hb
      simp only [List.mem_map, List.mem_range, Function.comp] at ha
      obtain ⟨k, hk, rfl⟩ := ha
      simp at hb
      subst hb
      exact progressAt_le_100 n (k + 1) (by omega)
  · simp only [runUpdates]
    exact List.getLast?_concat _

/-- C8: if the external per-step computation raises on step `j` of `n`, the
final update is "failed" with progress 0, no update ever carries a result
payload, no update reports status "completed", and no update reports
progress beyond the value reported for the last successfully completed step
`j - 1`. -/
theorem c8_failure_trace (n j : Nat) (h1 : 1 ≤ j) (h2 : j ≤ n) :
    (runUpdatesFailAt n j).getLast? = some ⟨"failed", 0, false⟩ ∧
    (∀ u ∈ runUpdatesFailAt n j, u.resultPresent = false) ∧
    (∀ u ∈ runUpdatesFailAt n j, u.status ≠ "completed") ∧
    (∀ u ∈ runUpdatesFailAt n j, u.progress ≤ progressAt n (j - 1)) := by
  refine ⟨?_, ?_, ?_, ?_⟩
  · simp only [runUpdatesFailAt]
    exact List.getLast?_concat _
  · intro u hu
    simp [runUpdatesFailAt] at hu
    rcases hu with rfl | ⟨k, _, rfl⟩ | rfl <;> rfl
  · intro u hu
    simp [runUpdatesFailAt] at hu
    rcases hu with rfl | ⟨k, _, rfl⟩ | rfl <;> simp
  · intro u hu
    simp [runUpdatesFailAt] at hu
    rcases hu with rfl | ⟨k, hk, rfl⟩ | rfl
    · exact Nat.zero_le _
    · exact progressAt_mono n (by omega)
    · exact Nat.zero_le _

/-- C8 witness: the failure trace instantiated at "fails on step 2 of 5". -/
theorem c8_witness :
    1 ≤ 2 ∧ 2 ≤ 5 ∧
      ((runUpdatesFailAt 5 2).getLast? = some ⟨"failed", 0, false⟩ ∧
        (∀ u ∈ runUpdatesFailAt 5 2, u.resultPresent = false) ∧
        (∀ u ∈ runUpdatesFailAt 5 2, u.status ≠ "completed") ∧
        (∀ u ∈ runUpdatesFailAt 5 2, u.progress ≤ progressAt 5 (2 - 1))) :=
  ⟨by norm_num, by norm_num, c8_failure_trace 5 2 (by norm_num) (by norm_num)⟩

/-! ### Job Store and Dispatcher (`database/job_queue.py`)

Jobs live in Redis: one hash per job under key `job:{id}`, plus the list
`jobs` holding the backlog of ids (`lpush` prepends, so the backlog is in
most-recently-created-first order).  The opaque `config` payload is modelled
by `JobConfig` (only the optional client-supplied `job_id` entry matters to
the store); the opaque `result` payload and timestamps are modelled as
naturals. -/

structure JobConfig where
  jobId : Option String
  payload : Nat
deriving DecidableEq

/-- One stored job hash (`create_job` writes status, progress, created_at,
updated_at and config; the `result` field is present in the hash only when
some update attached it). -/
structure JobRecord where
  status : String
  progress : Nat
  created_at : Nat
  updated_at : Nat
  config : JobConfig
  result : Option Nat
deriving DecidableEq

structure Store where
  jobs : String → Option JobRecord
  backlog : List String

/-- Endpoint `POST /jobs` (`create_job`): takes the job id from the config if present
(else the generated uuid `genId`), writes the hash fields for the new
pending job with `redis_client.hset` (a field-wise merge: the mapping
written by `create_job` never contains `result`, so a `result` field left by
a previous job under the same id survives), prepends the id to the backlog
with `lpush`, makes a single best-effort dispatch call to the simulation
service whose outcome `dispatchOk` is swallowed by `try/except`, and returns
the freshly built `Job` object (whose own `result` is `None`). -/
def createJob (s : Store) (cfg : JobConfig) (genId : String) (now : Nat)
    (dispatchOk : Bool) : Store × JobRecord :=
  let id := cfg.jobId.getD genId
  let prevResult := match s.jobs id with
    | some old => old.result
    | none => none
  let stored : JobRecord := ⟨"pending", 0, now, now, cfg, prevResult⟩
  let _ := dispatchOk
  (⟨fun j => if j = id then some stored else s.jobs j, id :: s.backlog⟩,
    ⟨"pending", 0, now, now, cfg, none⟩)

/-- Endpoint `GET /jobs` (`list_jobs`): walks the backlog list and returns the hash
of every id that still has one. -/
def listJobs (s : Store) : List JobRecord := s.backlog.filterMap s.jobs

/-- C9: whatever the outcome of the Dispatcher's best-effort push, job
creation stores the job as pending with progress 0 under its id, prepends
the id to the backlog, returns the pending job record, and produces exactly
the same store and response for a successful push as for a failed one. -/
theorem c9_dispatch_failure_swallowed (s : Store) (cfg : JobConfig)
    (genId : String) (now : Nat) (ok ok2 : Bool) :
    (createJob s cfg genId now ok).2 =
      ⟨"pending", 0, now, now, cfg, none⟩ ∧
    (createJob s cfg genId now ok).1.backlog =
      cfg.jobId.getD genId :: s.backlog ∧
    ((createJob s cfg genId now ok).1.jobs (cfg.jobId.getD genId)).map
        JobRecord.status = some "pending" ∧
    ((createJob s cfg genId now ok).1.jobs (cfg.jobId.getD genId)).map
        JobRecord.progress = some 0 ∧
    createJob s cfg genId now ok = createJob s cfg genId now ok2 := by
  refine ⟨rfl, rfl, ?_, ?_, rfl⟩ <;> simp [createJob]

/-- C10: creating a job whose config carries an id that is already stored
overwrites the stored record's fields under that id (keeping a previously
attached `result` field, which the create mapping does not touch), prepends
a second copy of the id to the backlog, and the listing then returns the
record for that id more than once. -/
theorem c10_duplicate_id_overwrites (s : Store) (cfg : JobConfig)
    (genId : String) (now : Nat) (ok : Bool) (old : JobRecord)
    (hold : s.jobs (cfg.jobId.getD genId) = some old)
    (hmem : cfg.jobId.getD genId ∈ s.backlog) :
    (createJob s cfg genId now ok).1.jobs (cfg.jobId.getD genId) =
      some ⟨"pending", 0, now, now, cfg, old.result⟩ ∧
    2 ≤ (createJob s cfg genId now ok).1.backlog.count (cfg.jobId.getD genId) ∧
    2 ≤ (listJobs (createJob s cfg genId now ok).1).count
          ⟨"pending", 0, now, now, cfg, old.result⟩ := by
  set id := cfg.jobId.getD genId with hid
  have hjobs : (createJob s cfg genId now ok).1.jobs id =
      some ⟨"pending", 0, now, now, cfg, old.result⟩ := by
    simp [createJob, hold]
  refine ⟨hjobs, ?_, ?_⟩
  · have hb : (createJob s cfg genId now ok).1.backlog = id :: s.backlog := rfl
    rw [hb, List.count_cons_self]
    have : 1 ≤ s.backlog.count id := List.count_pos_iff.mpr hmem
    omega
  · have hb : (createJob s cfg genId now ok).1.backlog = id :: s.backlog := rfl
    unfold listJobs
    rw [hb]
    rw [List.filterMap_cons_some hjobs, List.count_cons_self]
    have hmem2 : (⟨"pending", 0, now, now, cfg, old.result⟩ : JobRecord) ∈
        s.backlog.filterMap (createJob s cfg genId now ok).1.jobs :=
      List.mem_filterMap.mpr ⟨id, hmem, hjobs⟩
    have : 1 ≤ (s.backlog.filterMap
        (createJob s cfg genId now ok).1.jobs).count
          ⟨"pending", 0, now, now, cfg, old.result⟩ :=
      List.count_pos_iff.mpr hmem2
    omega

/-- A concrete one-job store used to instantiate the duplicate-id theorem. -/
def cfgEx : JobConfig := ⟨some "j1", 7⟩

def oldEx : JobRecord := ⟨"completed", 100, 0, 1, cfgEx, some 5⟩

def storeEx : Store := ⟨fun j => if j = "j1" then some oldEx else none, ["j1"]⟩

/-- C10 witness: a concrete store already holding a job under id "j1",
re-created with the same id. -/
theorem c10_witness :
    storeEx.jobs (cfgEx.jobId.getD "g") = some oldEx ∧
    2 ≤ (createJob storeEx cfgEx "g" 2 true).1.backlog.count
          (cfgEx.jobId.getD "g") :=
  ⟨by simp [storeEx, cfgEx],
    (c10_duplicate_id_overwrites storeEx cfgEx "g" 2 true oldEx
      (by simp [storeEx, cfgEx]) (by simp [storeEx, cfgEx])).2.1⟩

/-! ### Independent-mode step enumeration (`run_simulation`, else branch)

`run_simulation` with `move_together = False` enumerates
`itertools.product(*moving_trajectories)` where `moving_trajectories` are
the trajectories of the drones with `has_motion`.  For each combination it
builds the drone placement, computes a composite step id
`"_".join(f"d{drone_idx}s{step_idx}")` (finding `step_idx` with
`list.index`, i.e. first occurrence), and stores the step's results in
`all_results[i]` where `i` is the running `enumerate` counter.  A position
is a Python list of floats, modelled as `List ℚ`; a result-map key is a
Python `int` or `str`, modelled as `Nat ⊕ String`. -/

structure DroneCfg where
  location : List ℚ
  hasMotion : Bool
deriving DecidableEq

/-- One entry of the `all_results` dict: the key it is stored under, the
composite step id the code computes for the step, and the drone placements
used for the step. -/
structure StepEntry where
  key : Nat ⊕ String
  stepId : String
  locations : List (List ℚ)
deriving DecidableEq

/-- Models `[i for i, d in enumerate(config.drones) if d.has_motion]`. -/
def movingIndices (drones : List DroneCfg) : List Nat :=
  (drones.enum.filter fun p => p.2.hasMotion).map Prod.fst

/-- Models `itertools.product` over a list of lists: all tuples taking one element
per input list, rightmost factor varying fastest. -/
def listProd {α : Type} : List (List α) → List (List α)
  | [] => [[]]
  | l :: ls => l.flatMap fun x => (listProd ls).map fun rest => x :: rest

/-- The drone placement for one combination: the drone at index `d` is
placed at its combination position when it has motion (the code writes
`current_drones[moving_drone_indices[idx]] = combination[idx]`, which is
the same as looking up `d`'s position in `moving_drone_indices`), and at
its configured location when it is stationary. -/
def placeDrones (drones : List DroneCfg) (mIdx : List Nat)
    (combo : List (List ℚ)) : List (List ℚ) :=
  (List.range drones.length).map fun d =>
    match drones[d]? with
    | none => []
    | some dc =>
        if dc.hasMotion then combo.getD (mIdx.indexOf d) [] else dc.location

/-- The composite step identifier
`"_".join(f"d{drone_idx}s{step_idx}" for ...)`, where `step_idx` is
recovered with `trajectories[drone_idx].index(drone_pos)` (first
occurrence). -/
def stepIdOf (trajectories : List (List (List ℚ))) (mIdx : List Nat)
    (combo : List (List ℚ)) : String :=
  String.intercalate "_" (combo.enum.map fun p =>
    "d" ++ toString (mIdx.getD p.1 0) ++ "s"
      ++ toString ((trajectories.getD (mIdx.getD p.1 0) []).indexOf p.2))

/-- The independent-mode (`move_together = False`) run: one `StepEntry` per
element of the Cartesian product of the moving drones' trajectories, in
enumeration order; the entry for the `i`-th combination is stored under the
integer key `i` (`all_results[i] = ...`), while the composite `step_id`
string is only passed to the per-step computation. -/
def runIndependent (drones : List DroneCfg)
    (trajectories : List (List (List ℚ))) : List StepEntry :=
  let mIdx := movingIndices drones
  let movingTrajs := mIdx.map fun i => trajectories.getD i []
  (listProd movingTrajs).enum.map fun p =>
    ⟨Sum.inl p.1, stepIdOf trajectories mIdx p.2, placeDrones drones mIdx p.2⟩

theorem listProd_length {α : Type} (ls : List (List α)) :
    (listProd ls).length = (ls.map List.length).prod := by
  induction ls with
  | nil => rfl
  | cons l ls ih =>
    simp only [listProd, List.length_flatMap, List.map_map, List.map_cons,
      List.prod_cons, Function.comp]
    have hc : (List.length ∘ fun x : α => List.map
        (fun rest => x :: rest) (listProd ls)) =
        fun _ : α => (listProd ls).length := by
      funext x
      simp
    rw [hc, List.map_const', List.sum_replicate, smul_eq_mul, ih]

/-- Concrete one-moving-drone configuration used to exhibit C3's keying. -/
def dronesEx : List DroneCfg := [⟨[0, 0, 0], true⟩]

def trajsEx : List (List (List ℚ)) := [[[0, 0, 0], [1, 0, 0]]]

/-- C3: the result map of an independent-mode run is keyed by the integer
enumeration counter, not by the composite step identifier: for one moving
drone with a 2-point trajectory the keys are the integers 0 and 1, and in
particular not every key is a (composite) string. -/
theorem c3_counterexample :
    (runIndependent dronesEx trajsEx).map StepEntry.key =
      [Sum.inl 0, Sum.inl 1] ∧
    ¬ (∀ e ∈ runIndependent dronesEx trajsEx, e.key.isRight = true) := by
  constructor
  · rfl
  · intro hall
    have h0 : Sum.inl 0 ∈ (runIndependent dronesEx trajsEx).map StepEntry.key := by
      rw [show (runIndependent dronesEx trajsEx).map StepEntry.key =
        [Sum.inl 0, Sum.inl 1] from rfl]
      simp
    obtain ⟨e, he, hek⟩ := List.mem_map.mp h0
    have hr := hall e he
    rw [hek] at hr
    simp at hr

/-- C3 (amended): the independent-mode run executes exactly the Cartesian
product of the moving drones' trajectories (the number of steps is the
product of their lengths), stationary drones stay at their configured
location in every step, and the accumulated result map is keyed by the
integer enumeration index of the combination (the composite
(entity, sample) step identifier is computed but used only as the argument
of the per-step computation). -/
theorem c3_product_and_integer_keys (drones : List DroneCfg)
    (trajectories : List (List (List ℚ))) :
    (runIndependent drones trajectories).length =
      ((movingIndices drones).map fun i => (trajectories.getD i []).length).prod ∧
    (∀ j (h : j < (runIndependent drones trajectories).length),
      ((runIndependent drones trajectories).get ⟨j, h⟩).key = Sum.inl j) ∧
    (∀ j (h : j < (runIndependent drones trajectories).length)
        (d : Nat) (hd : d < drones.length),
      (drones.get ⟨d, hd⟩).hasMotion = false →
      ((runIndependent drones trajectories).get ⟨j, h⟩).locations[d]? =
        some (drones.get ⟨d, hd⟩).location) := by
  refine ⟨?_, ?_, ?_⟩
  · simp [runIndependent, listProd_length, List.map_map, Function.comp_def]
  · intro j h
    simp only [runIndependent, List.get_eq_getElem, List.getElem_map,
      List.getElem_enum]
  · intro j h d hd hm
    simp only [List.get_eq_getElem] at hm
    simp only [runIndependent, List.get_eq_getElem, List.getElem_map,
      List.getElem_enum, placeDrones]
    rw [List.getElem?_map, List.getElem?_range hd]
    simp [List.getElem?_eq_getElem hd, hm]

/-- C3 witness: the amended statement instantiated at the concrete
one-moving-drone configuration, combination 0. -/
theorem c3_witness :
    ((runIndependent dronesEx trajsEx).get ⟨0, by decide⟩).key = Sum.inl 0 :=
  (c3_product_and_integer_keys dronesEx trajsEx).2.1 0 (by decide)

/-! ### Line trajectories (`_calculate_trajectories`, `line` branch)

The `line` branch computes, for `i in range(steps)`,
`start + i * (end - start) / (steps - 1)` with numpy float arrays.  Python
floats are modelled as `ℚ`; numpy's float division returns a non-finite
value (NaN for `0 / 0`, ±inf otherwise) instead of raising when the divisor
is zero, modelled as `none`. -/

def npDiv (a b : ℚ) : Option ℚ := if b = 0 then none else some (a / b)

/-- One point of a `line` trajectory: coordinate-wise
`start + (i * (end - start)) / (steps - 1)`; adding a coordinate to a
non-finite division result stays non-finite. -/
def linePoint (start endPos : List ℚ) (steps i : Nat) : List (Option ℚ) :=
  List.zipWith
    (fun s e => (npDiv ((i : ℚ) * (e - s)) ((steps : ℚ) - 1)).map fun q => s + q)
    start endPos

/-- The whole `line` trajectory, one point per `i in range(steps)`. -/
def lineTraj (start endPos : List ℚ) (steps : Nat) : List (List (Option ℚ)) :=
  (List.range steps).map (linePoint start endPos steps)

/-- C5: for `steps = 1` the `line` branch divides by `steps - 1 = 0`, so the
single emitted point is NaN in every coordinate (numpy `0 / 0`) instead of
the spec-required start point; for `steps = 2` the code does emit the two
endpoints, confirming the interpolation is otherwise as specified. -/
theorem c5_line_nan_at_single_step :
    lineTraj [0, 0, 0] [10, 0, 0] 1 = [[none, none, none]] ∧
    lineTraj [0, 0, 0] [10, 0, 0] 2 =
      [[some 0, some 0, some 0], [some 10, some 0, some 0]] := by
  constructor <;> norm_num [lineTraj, linePoint, npDiv, List.range_succ]

/-! ### Result encoder/decoder

The encoder (`_run_sionna_step`) produces
`base64.b64encode(arr.tobytes()).decode('utf-8')` plus `dtype` and `shape`
metadata.  The decoder (`process_simulation_results_data`) computes
`expected_elements = int(np.prod(shape))` and runs
`np.frombuffer(base64.b64decode(token), dtype=np.float16)[:expected_elements].reshape(shape)`
— the dtype is hard-coded to `np.float16`, the `dtype` tag in the metadata
is never read.  A byte is a `Nat < 256`; an array element is its list of
raw bytes (so bit-identity is list equality); base64 is modelled
character-for-character. -/

/-- RFC 4648 sextet stream of a byte list: each 3-byte group yields 4
sextets; a final 1- or 2-byte group yields 2 or 3 sextets. -/
def toSextets : List Nat → List Nat
  | [] => []
  | [a] => [a / 4, a % 4 * 16]
  | [a, b] => [a / 4, a % 4 * 16 + b / 16, b % 16 * 4]
  | a :: b :: c :: rest =>
      a / 4 :: (a % 4 * 16 + b / 16) :: (b % 16 * 4 + c / 64) :: c % 64 ::
        toSextets rest

/-- Inverse of `toSextets`: 4 sextets yield 3 bytes, a final group of 3 or
2 sextets yields 2 or 1 bytes (as `base64.b64decode` does after stripping
padding). -/
def fromSextets : List Nat → List Nat
  | s1 :: s2 :: s3 :: s4 :: rest =>
      (s1 * 4 + s2 / 16) :: (s2 % 16 * 16 + s3 / 4) :: (s3 % 4 * 64 + s4) ::
        fromSextets rest
  | [s1, s2, s3] => [s1 * 4 + s2 / 16, s2 % 16 * 16 + s3 / 4]
  | [s1, s2] => [s1 * 4 + s2 / 16]
  | _ => []

/-- Number of `'='` padding characters `base64.b64encode` appends. -/
def padLen : List Nat → Nat
  | [] => 0
  | [_] => 2
  | [_, _] => 1
  | _ :: _ :: _ :: rest => padLen rest

/-- The standard base64 alphabet. -/
def b64Alphabet : List Char :=
  "ABCDEFGHIJKLMNOPQRSTUVWXYZabcdefghijklmnopqrstuvwxyz0123456789+/".toList

def encChar (s : Nat) : Char := b64Alphabet.getD s '='

def decChar (c : Char) : Nat := b64Alphabet.indexOf c

/-- Models `base64.b64encode`: alphabet characters for the sextets plus padding. -/
def b64encode (bs : List Nat) : List Char :=
  (toSextets bs).map encChar ++ List.replicate (padLen bs) '='

/-- Models `base64.b64decode`: strip padding, look each character up in the
alphabet, reassemble bytes. -/
def b64decode (cs : List Char) : List Nat :=
  fromSextets ((cs.filter fun c => c != '=').map decChar)

theorem from_toSextets (bs : List Nat) :
    (∀ x ∈ bs, x < 256) → fromSextets (toSextets bs) = bs := by
  induction bs using toSextets.induct with
  | case1 => intro _; rfl
  | case2 a =>
    intro hb
    have ha : a < 256 := hb a (by simp)
    simp [toSextets, fromSextets]
    omega
  | case3 a b =>
    intro hb
    have ha : a < 256 := hb a (by simp)
    have hbb : b < 256 := hb b (by simp)
    simp [toSextets, fromSextets]
    omega
  | case4 a b c rest ih =>
    intro hb
    have ha : a < 256 := hb a (by simp)
    have hbb : b < 256 := hb b (by simp)
    have hc : c < 256 := hb c (by simp)
    simp only [toSextets, fromSextets]
    rw [ih (fun x hx => hb x (by simp [hx]))]
    simp only [List.cons.injEq]
    refine ⟨by omega, by omega, by omega, trivial⟩

theorem toSextets_lt (bs : List Nat) :
    (∀ x ∈ bs, x < 256) → ∀ s ∈ toSextets bs, s < 64 := by
  induction bs using toSextets.induct with
  | case1 => intro _ s hs; simp [toSextets] at hs
  | case2 a =>
    intro hb s hs
    have ha : a < 256 := hb a (by simp)
    simp [toSextets] at hs
    rcases hs with rfl | rfl <;> omega
  | case3 a b =>
    intro hb s hs
    have ha : a < 256 := hb a (by simp)
    have hbb : b < 256 := hb b (by simp)
    simp [toSextets] at hs
    rcases hs with rfl | rfl | rfl <;> omega
  | case4 a b c rest ih =>
    intro hb s hs
    have ha : a < 256 := hb a (by simp)
    have hbb : b < 256 := hb b (by simp)
    have hc : c < 256 := hb c (by simp)
    simp only [toSextets, List.mem_cons] at hs
    rcases hs with rfl | rfl | rfl | rfl | hs
    · omega
    · omega
    · omega
    · omega
    · exact ih (fun x hx => hb x (by simp [hx])) s hs

theorem dec_enc : ∀ s, s < 64 →
    decChar (encChar s) = s ∧ (encChar s != '=') = true := by decide

theorem b64_roundtrip (bs : List Nat) (hb : ∀ x ∈ bs, x < 256) :
    b64decode (b64encode bs) = bs := by
  unfold b64encode b64decode
  rw [List.filter_append]
  have h1 : ((toSextets bs).map encChar).filter (fun c => c != '=') =
      (toSextets bs).map encChar := by
    apply List.filter_eq_self.mpr
    intro c hc
    obtain ⟨s, hs, rfl⟩ := List.mem_map.mp hc
    exact (dec_enc s (toSextets_lt bs hb s hs)).2
  have h2 : (List.replicate (padLen bs) '=').filter (fun c => c != '=') = [] := by
    induction padLen bs with
    | zero => rfl
    | succ m ih => simp [List.replicate_succ, ih]
  rw [h1, h2, List.append_nil, List.map_map]
  have h3 : (toSextets bs).map (decChar ∘ encChar) = toSextets bs := by
    conv_rhs => rw [← List.map_id (toSextets bs)]
    apply List.map_congr_left
    intro s hs
    exact (dec_enc s (toSextets_lt bs hb s hs)).1
  rw [h3]
  exact from_toSextets bs hb

/-- Models `arr.tobytes()`: concatenation of the per-element byte lists. -/
def tobytes (elems : List (List Nat)) : List Nat := elems.flatten

/-- Grouping of a buffer into consecutive 2-byte (float16) elements. -/
def chunk2 : List Nat → List (List Nat)
  | b0 :: b1 :: rest => [b0, b1] :: chunk2 rest
  | _ => []

/-- Models `np.frombuffer(bs, dtype=np.float16)`: raises (`none`) unless the byte
count is a multiple of the 2-byte item size. -/
def frombuffer16 (bs : List Nat) : Option (List (List Nat)) :=
  if bs.length % 2 = 0 then some (chunk2 bs) else none

/-- The encoder side: `base64.b64encode(arr.tobytes()).decode('utf-8')`. -/
def encodeArray (elems : List (List Nat)) : List Char := b64encode (tobytes elems)

/-- The decoder side for one CIR token
(`process_simulation_results_data`): reject a falsy (empty) shape, decode
the base64 token, reinterpret the bytes as float16 elements, truncate to
`int(np.prod(shape))` elements and reshape (which raises, `none`, when
fewer elements than the shape demands are available). -/
def processToken (token : List Char) (shape : List Nat) :
    Option (List (List Nat)) :=
  if shape = [] then none
  else
    match frombuffer16 (b64decode token) with
    | none => none
    | some full =>
        if shape.prod ≤ full.length then some (full.take shape.prod) else none

theorem chunk2_flatten (elems : List (List Nat)) (hw : ∀ e ∈ elems, e.length = 2) :
    chunk2 (tobytes elems) = elems := by
  induction elems with
  | nil => rfl
  | cons e rest ih =>
    obtain ⟨b0, b1, rfl⟩ := List.length_eq_two.mp (hw e (by simp))
    show chunk2 ([b0, b1] ++ tobytes rest) = _
    rw [show ([b0, b1] ++ tobytes rest) = b0 :: b1 :: tobytes rest from rfl]
    rw [show chunk2 (b0 :: b1 :: tobytes rest) =
      [b0, b1] :: chunk2 (tobytes rest) from rfl]
    rw [ih (fun x hx => hw x (by simp [hx]))]

theorem tobytes_length (elems : List (List Nat)) (hw : ∀ e ∈ elems, e.length = 2) :
    (tobytes elems).length = 2 * elems.length := by
  induction elems with
  | nil => rfl
  | cons e rest ih =>
    have he : e.length = 2 := hw e (by simp)
    show (e ++ tobytes rest).length = _
    rw [List.length_append, he, ih (fun x hx => hw x (by simp [hx]))]
    rw [List.length_cons]
    omega

/-- C2: the round trip is not bit-identical for every supported element
width, because the decoder hard-codes float16 and ignores the `dtype` tag:
a single 4-byte (float32) element `[0, 0, 128, 63]` (the bytes of `1.0f`)
with shape `[1]` decodes to the single float16 element `[0, 0]` — the first
two bytes — not to the original element. -/
theorem c2_counterexample :
    processToken (encodeArray [[0, 0, 128, 63]]) [1] = some [[0, 0]] ∧
    ([[0, 0]] : List (List Nat)) ≠ [[0, 0, 128, 63]] := by
  constructor
  · decide
  · decide

/-- C2 (amended): for arrays of 2-byte (float16) elements — the element
width the decoder hard-codes — and a non-empty shape whose element count is
at most the array length, decoding the encoder's token reconstructs the
array bit-identically, truncated to the element count the decoder computes
from the shape (it does not trust the token's length beyond that). -/
theorem c2_float16_roundtrip (elems : List (List Nat)) (shape : List Nat)
    (hw : ∀ e ∈ elems, e.length = 2)
    (hb : ∀ e ∈ elems, ∀ x ∈ e, x < 256)
    (hs : shape ≠ []) (hp : shape.prod ≤ elems.length) :
    processToken (encodeArray elems) shape = some (elems.take shape.prod) := by
  unfold processToken encodeArray
  rw [if_neg (by simpa using hs)]
  have hbytes : ∀ x ∈ tobytes elems, x < 256 := by
    intro x hx
    obtain ⟨e, he, hxe⟩ := List.mem_flatten.mp hx
    exact hb e he x hxe
  rw [b64_roundtrip _ hbytes]
  have hfb : frombuffer16 (tobytes elems) = some (chunk2 (tobytes elems)) := by
    unfold frombuffer16
    rw [if_pos (by rw [tobytes_length elems hw]; omega)]
  rw [hfb, chunk2_flatten elems hw]
  show (if shape.prod ≤ elems.length then some (List.take shape.prod elems)
    else none) = some (List.take shape.prod elems)
  rw [if_pos hp]

/-- C2 witness: the float16 round trip instantiated at the one-element
array `[[1, 2]]` with shape `[1]`. -/
theorem c2_witness :
    (∀ e ∈ ([[1, 2]] : List (List Nat)), e.length = 2) ∧
    processToken (encodeArray [[1, 2]]) [1] = some [[1, 2]] :=
  ⟨by decide, by
    simpa using c2_float16_roundtrip [[1, 2]] [1] (by decide) (by decide)
      (by decide) (by decide)⟩

/-! ### Circle trajectories (`_calculate_trajectories`, `circle` branch)

The `circle` branch puts the circle's center at `(x0 + radius, y0)`, starts
at 180° and advances by `360 / steps` degrees per sample, holding Z fixed;
each offset is computed by `polar_to_cartesian`, which rounds both
Cartesian coordinates to two decimal places (`round(x, 2)`).  Floats are
modelled as reals; `round(·, 2)` is modelled as rounding `100 x` to the
nearest integer (the exact-half case, where Python rounds to even and
`round` rounds up, does not arise at the inputs used here). -/

/-- Models `math.radians`. -/
noncomputable def radians (d : ℝ) : ℝ := d * Real.pi / 180

/-- Python `round(x, 2)`. -/
noncomputable def round2 (x : ℝ) : ℝ := (round (100 * x) : ℤ) / 100

/-- Models `polar_to_cartesian(radius, degree)`: Cartesian coordinates rounded to
two decimals. -/
noncomputable def polar_to_cartesian (radius degree : ℝ) : ℝ × ℝ :=
  (round2 (radius * Real.cos (radians degree)),
   round2 (radius * Real.sin (radians degree)))

/-- Sample `i` of a `circle` trajectory for a drone at `(x0, y0, z0)`:
`(center_x + dx, center_y + dy, z)` with `center = (x0 + radius, y0)` and
`(dx, dy) = polar_to_cartesian(radius, 180 + i * (360 / steps))`. -/
noncomputable def circlePoint (x0 y0 z0 radius : ℝ) (steps i : Nat) : ℝ × ℝ × ℝ :=
  (x0 + radius + (polar_to_cartesian radius (180 + i * (360 / (steps : ℝ)))).1,
   y0 + (polar_to_cartesian radius (180 + i * (360 / (steps : ℝ)))).2, z0)

/-- The whole `circle` trajectory, one point per `i in range(steps)`. -/
noncomputable def circleTraj (x0 y0 z0 radius : ℝ) (steps : Nat) :
    List (ℝ × ℝ × ℝ) :=
  (List.range steps).map (circlePoint x0 y0 z0 radius steps)

/-- Planar Euclidean distance. -/
noncomputable def dist2D (p q : ℝ × ℝ) : ℝ :=
  Real.sqrt ((p.1 - q.1) ^ 2 + (p.2 - q.2) ^ 2)

theorem abs_round2_sub (x : ℝ) : |round2 x - x| ≤ 1 / 200 := by
  unfold round2
  have h := abs_sub_round ((100 : ℝ) * x)
  rw [show ((round ((100 : ℝ) * x) : ℤ) : ℝ) / 100 - x =
    (((round ((100 : ℝ) * x) : ℤ) : ℝ) - 100 * x) / 100 by ring]
  rw [abs_div]
  rw [show |(100 : ℝ)| = 100 by norm_num, abs_sub_comm]
  linarith

/-- Perturbing a point at distance `r` from the origin by at most `1 / 200`
in each coordinate moves its distance from the origin by at most
`√2 / 200 < 1 / 100`. -/
theorem sqrt_err_bound (u v e f r : ℝ) (hr : 0 ≤ r) (huv : u ^ 2 + v ^ 2 = r ^ 2)
    (he : |e| ≤ 1 / 200) (hf : |f| ≤ 1 / 200) :
    |Real.sqrt ((u + e) ^ 2 + (v + f) ^ 2) - r| ≤ 1 / 100 := by
  have habs1 : Real.sqrt ((u + e) ^ 2 + (v + f) ^ 2) =
      Complex.abs (⟨u, v⟩ + ⟨e, f⟩ : ℂ) := by
    rw [Complex.abs_apply]
    congr 1
    simp [Complex.normSq, Complex.add_re, Complex.add_im]
    ring
  have habs2 : Complex.abs (⟨u, v⟩ : ℂ) = r := by
    rw [Complex.abs_apply]
    rw [show Complex.normSq ⟨u, v⟩ = u ^ 2 + v ^ 2 by simp [Complex.normSq]; ring]
    rw [huv]
    exact Real.sqrt_sq hr
  have habs3 : Complex.abs (⟨e, f⟩ : ℂ) ≤ 1 / 100 := by
    rw [Complex.abs_apply]
    rw [show Complex.normSq ⟨e, f⟩ = e ^ 2 + f ^ 2 by simp [Complex.normSq]; ring]
    have he2 : e ^ 2 ≤ (1 / 200) ^ 2 := by
      rcases abs_le.mp he with ⟨ha1, ha2⟩
      nlinarith
    have hf2 : f ^ 2 ≤ (1 / 200) ^ 2 := by
      rcases abs_le.mp hf with ⟨ha1, ha2⟩
      nlinarith
    calc Real.sqrt (e ^ 2 + f ^ 2) ≤ Real.sqrt ((1 / 100) ^ 2) := by
          apply Real.sqrt_le_sqrt
          nlinarith
      _ = 1 / 100 := Real.sqrt_sq (by norm_num)
  rw [habs1, ← habs2]
  calc |Complex.abs (⟨u, v⟩ + ⟨e, f⟩ : ℂ) - Complex.abs (⟨u, v⟩ : ℂ)| ≤
      Complex.abs ((⟨u, v⟩ + ⟨e, f⟩ : ℂ) - ⟨u, v⟩) :=
        Complex.abs.abs_abv_sub_le_abv_sub _ _
    _ = Complex.abs (⟨e, f⟩ : ℂ) := by congr 1; ring
    _ ≤ 1 / 100 := habs3

/-- C4: because `polar_to_cartesian` rounds to two decimals, a circle point
need not lie at distance exactly `radius` from the center, and the first
sample need not equal the drone's location: with location `(0, 0, 0)`,
radius `1/1000` and one step, the only generated point is
`(1/1000, 0, 0)` — it differs from the location, and its distance from the
center `(0 + 1/1000, 0)` is `0`, not `1/1000`. -/
theorem c4_counterexample :
    circleTraj 0 0 0 (1 / 1000) 1 = [((1 : ℝ) / 1000, 0, 0)] ∧
    dist2D (1 / 1000, 0) ((0 : ℝ) + 1 / 1000, 0) = 0 ∧
    ((1 / 1000 : ℝ), (0 : ℝ), (0 : ℝ)) ≠ ((0 : ℝ), 0, 0) ∧
    (0 : ℝ) ≠ 1 / 1000 := by
  have hrad : radians 180 = Real.pi := by
    unfold radians
    field_simp
  have hang : (180 : ℝ) + ((0 : ℕ) : ℝ) * (360 / ((1 : ℕ) : ℝ)) = 180 := by
    norm_num
  have hdx : round2 ((1 / 1000 : ℝ) * Real.cos (radians 180)) = 0 := by
    rw [hrad, Real.cos_pi]
    unfold round2
    rw [show (100 : ℝ) * (1 / 1000 * -1) = -(1 / 10) by norm_num]
    rw [round_eq]
    rw [show (-(1 / 10 : ℝ) + 1 / 2) = 2 / 5 by norm_num]
    rw [show ⌊(2 / 5 : ℝ)⌋ = 0 by rw [Int.floor_eq_iff]; norm_num]
    norm_num
  have hdy : round2 ((1 / 1000 : ℝ) * Real.sin (radians 180)) = 0 := by
    rw [hrad, Real.sin_pi]
    unfold round2
    norm_num
  refine ⟨?_, ?_, ?_, by norm_num⟩
  · unfold circleTraj
    rw [show List.range 1 = [0] from rfl]
    simp only [List.map_cons, List.map_nil]
    unfold circlePoint polar_to_cartesian
    rw [hang, hdx, hdy]
    norm_num
  · unfold dist2D
    norm_num
  · intro h
    rw [Prod.ext_iff] at h
    norm_num at h

/-- C4 (amended): every generated circle point keeps Z fixed at `z0` and
lies within `1/100` (the two-decimal coordinate rounding) of distance
`radius` from the center `(x0 + radius, y0)`; and whenever `100 * radius`
is an integer (so the rounding is exact at 180°), the first sample equals
the drone's original location. -/
theorem c4_rounded_circle (x0 y0 z0 radius : ℝ) (steps : Nat)
    (hr : 0 < radius) (hs : 1 ≤ steps) :
    (∀ i, i < steps →
      (circlePoint x0 y0 z0 radius steps i).2.2 = z0 ∧
      |dist2D ((circlePoint x0 y0 z0 radius steps i).1,
          (circlePoint x0 y0 z0 radius steps i).2.1) (x0 + radius, y0)
        - radius| ≤ 1 / 100) ∧
    ((∃ m : ℤ, (m : ℝ) = 100 * radius) →
      circlePoint x0 y0 z0 radius steps 0 = (x0, y0, z0)) := by
  constructor
  · intro i _
    refine ⟨rfl, ?_⟩
    unfold circlePoint polar_to_cartesian dist2D
    set θ := radians (180 + (i : ℝ) * (360 / (steps : ℝ))) with hθ
    set dx := round2 (radius * Real.cos θ) with hdx
    set dy := round2 (radius * Real.sin θ) with hdy
    simp only []
    rw [show x0 + radius + dx - (x0 + radius) =
        radius * Real.cos θ + (dx - radius * Real.cos θ) by ring]
    rw [show y0 + dy - y0 =
        radius * Real.sin θ + (dy - radius * Real.sin θ) by ring]
    apply sqrt_err_bound _ _ _ _ _ (le_of_lt hr)
    · nlinarith [Real.sin_sq_add_cos_sq θ]
    · rw [hdx]
      exact abs_round2_sub _
    · rw [hdy]
      exact abs_round2_sub _
  · rintro ⟨m, hm⟩
    have hang : (180 : ℝ) + (0 : Nat) * (360 / (steps : ℝ)) = 180 := by
      norm_num
    have hrad : radians 180 = Real.pi := by
      unfold radians
      field_simp
    have hdx : round2 (radius * Real.cos (radians 180)) = -radius := by
      rw [hrad, Real.cos_pi]
      unfold round2
      rw [show (100 : ℝ) * (radius * -1) = ((-m : ℤ) : ℝ) by push_cast; linarith]
      rw [round_intCast]
      push_cast
      linarith
    have hdy : round2 (radius * Real.sin (radians 180)) = 0 := by
      rw [hrad, Real.sin_pi]
      unfold round2
      norm_num
    unfold circlePoint polar_to_cartesian
    rw [hang, hdx, hdy]
    simp [Prod.ext_iff]

/-- C4 witness: the rounded-circle statement instantiated at location
`(0, 0, 0)`, radius `1/100` (an exact multiple of `0.01`) and one step. -/
theorem c4_witness :
    (0 : ℝ) < 1 / 100 ∧ 1 ≤ 1 ∧
      circlePoint 0 0 0 (1 / 100) 1 0 = ((0 : ℝ), (0 : ℝ), (0 : ℝ)) :=
  ⟨by norm_num, le_refl 1,
    (c4_rounded_circle 0 0 0 (1 / 100) 1 (by norm_num) (le_refl 1)).2
      ⟨1, by norm_num⟩⟩

end AHDL
